import Mathlib

/-!
Shallow embedding of the review-assignment service (Go repository
`avitoTest`).  The pull-request lifecycle and reviewer selection live in
`internal/usecase/pull_request.go`; the pull-request storage layer in
`internal/repository/pull_request` (modelled here with explicit state
passing over two tables, mirroring the `pull_requests` and `pr_reviewers`
SQL tables); the team-creation use case in `internal/usecase` (team
use-case file).  The user repository's source file is absent from the
repository snapshot (only its tests are present), so its two queries are
modelled from the spec's external-interface contract (§6).
-/

namespace AvitoReview

/-- `domain.User` as used by the use-case layer and the tests:
string id, username, integer team id, team name, active flag. -/
structure User where
  id : String
  username : String
  teamID : Nat
  teamName : String
  isActive : Bool
deriving Repr, DecidableEq

/-- One row of the `pull_requests` table (no reviewer set: reviewers live
in the `pr_reviewers` table). -/
structure PRRow where
  id : String
  title : String
  authorID : String
  status : String
  createdAt : Option Nat
  mergedAt : Option Nat
deriving Repr, DecidableEq

/-- `domain.PullRequest`: a PR record together with its assigned-reviewer
ids, as the use-case layer sees it. -/
structure PullRequest where
  id : String
  title : String
  authorID : String
  status : String
  createdAt : Option Nat
  mergedAt : Option Nat
  assignedReviewers : List String
deriving Repr, DecidableEq

instance : Inhabited PullRequest :=
  ⟨⟨"", "", "", "", none, none, []⟩⟩

/-- The typed error kinds of `domain` (errors file), plus `generic` for the
plain `errors.New` failures the repository layer can return. -/
inductive DomainError where
  | userNotFound
  | teamNotFound
  | teamExists
  | prNotFound
  | prExists
  | prMerged
  | reviewerNotAssigned
  | noCandidates
  | generic (msg : String)
deriving Repr, DecidableEq

/-- `domain.PRStatusOpen`. -/
def PRStatusOpen : String := "OPEN"

/-- `domain.PRStatusMerged`. -/
def PRStatusMerged : String := "MERGED"

/-- The `CLOSED` status value: reachable in the storage schema and used by
the tests, never written by the core. -/
def PRStatusClosed : String := "CLOSED"

/-- The storage state: the `pull_requests` table, the `pr_reviewers` table
(rows `(pr_id, reviewer_id)`, primary key on the pair), and the `users`
table. -/
structure Store where
  pullRequests : List PRRow
  prReviewers : List (String × String)
  users : List User
deriving Repr, DecidableEq

/-! ## User repository

Modelled from the spec: the user repository's source file is not in the
repository snapshot (only `user_test.go` is), so `FindByID` and
`FindActiveByTeamID` follow §6's contract: `FindUserByID(id) → User |
UserNotFound` and `FindActiveTeamMates(teamID, excludeUserID) → ordered
list of User (active only, excludes given id)`. -/

/-- Modelled from the spec: `UserRepository.FindByID` — the user with the
given id, or `UserNotFound`. -/
def findUserByID (users : List User) (id : String) : Except DomainError User :=
  match users.find? (fun u => u.id == id) with
  | some u => .ok u
  | none => .error .userNotFound

/-- Modelled from the spec: `UserRepository.FindActiveByTeamID` — the
active users of the team, in stored order, excluding the given user id. -/
def findActiveByTeamID (users : List User) (teamID : Nat) (excludeUserID : String) :
    List User :=
  users.filter (fun u => u.teamID == teamID && u.isActive && u.id != excludeUserID)

/-! ## Pull-request repository (`internal/repository/pull_request`) -/

/-- `PRRepository.SavePR`: stamps `CreatedAt` when unset, validates id and
status, upserts the `pull_requests` row (`ON CONFLICT (id) DO UPDATE SET
title, status, merged_at` — author and creation time are not overwritten),
then inserts each assigned reviewer with `ON CONFLICT DO NOTHING`.
Returns the (possibly stamped) record alongside the new state, because the
Go code mutates the record it was passed. -/
def savePR (store : Store) (pr : PullRequest) (now : Nat) :
    Except DomainError (PullRequest × Store) :=
  let pr := if pr.createdAt.isNone then { pr with createdAt := some now } else pr
  if pr.id == "" then
    .error (.generic "ID should not be empty")
  else if pr.status != PRStatusMerged && pr.status != PRStatusOpen then
    .error (.generic "Uncorrect status of pull request")
  else
    let rows :=
      if store.pullRequests.any (fun r => r.id == pr.id) then
        store.pullRequests.map (fun r =>
          if r.id == pr.id then
            { r with title := pr.title, status := pr.status, mergedAt := pr.mergedAt }
          else r)
      else
        store.pullRequests ++
          [⟨pr.id, pr.title, pr.authorID, pr.status, pr.createdAt, pr.mergedAt⟩]
    let revs := pr.assignedReviewers.foldl
      (fun acc reviewerID =>
        if acc.contains (pr.id, reviewerID) then acc else acc ++ [(pr.id, reviewerID)])
      store.prReviewers
    .ok (pr, { store with pullRequests := rows, prReviewers := revs })

/-- `PRRepository.FindByID`: the `pull_requests` row with that id (else
`PRNotFound`) together with its reviewer ids from `pr_reviewers`. -/
def findPRByID (store : Store) (prID : String) : Except DomainError PullRequest :=
  match store.pullRequests.find? (fun r => r.id == prID) with
  | none => .error .prNotFound
  | some r =>
      .ok ⟨r.id, r.title, r.authorID, r.status, r.createdAt, r.mergedAt,
        (store.prReviewers.filter (fun p => p.1 == prID)).map Prod.snd⟩

/-- `PRRepository.UpdateStatus`: `UPDATE pull_requests SET status, merged_at
WHERE id`; zero rows affected means `PRNotFound`.  A nil `mergedAt` is
written as the zero time (the Go code always passes a non-nil pointer). -/
def updateStatus (store : Store) (prID : String) (status : String)
    (mergedAt : Option Nat) : Except DomainError Store :=
  let utcTime := mergedAt.getD 0
  if store.pullRequests.any (fun r => r.id == prID) then
    .ok { store with pullRequests := store.pullRequests.map (fun r =>
      if r.id == prID then { r with status := status, mergedAt := some utcTime } else r) }
  else
    .error .prNotFound

/-- `PRRepository.ReplaceReviewer`: in one transaction, delete the
`(prID, oldReviewerID)` rows (zero rows affected fails with
`ReviewerNotAssigned`), then insert `(prID, newReviewerID)` (a plain
insert: a duplicate pair violates the primary key). -/
def replaceReviewer (store : Store) (prID oldReviewerID newReviewerID : String) :
    Except DomainError Store :=
  let remaining := store.prReviewers.filter
    (fun p => !(p.1 == prID && p.2 == oldReviewerID))
  if remaining.length == store.prReviewers.length then
    .error .reviewerNotAssigned
  else if remaining.contains (prID, newReviewerID) then
    .error (.generic "duplicate key value violates unique constraint")
  else
    .ok { store with prReviewers := remaining ++ [(prID, newReviewerID)] }

/-- The stored reviewer set of a PR: the `pr_reviewers` rows with that
`pr_id`, in stored order. -/
def reviewersOf (store : Store) (prID : String) : List String :=
  (store.prReviewers.filter (fun p => p.1 == prID)).map Prod.snd

/-! ## PR use case (`internal/usecase/pull_request.go`)

Randomness: the Go code reseeds the shared generator and calls
`rand.Intn(n)` repeatedly.  The draws are modelled by a stream
`g : Nat → Nat`; the `k`-th call of `rand.Intn n` yields `g k % n`.
The resampling loop that forces the two drawn indices apart can run
unboundedly, so it carries fuel; `none` is the run that never leaves the
loop. -/

/-- The resampling loop of `autoAssignReviewers`: while the second index
equals the first, redraw it.  `k` is the position of the next draw in the
stream. -/
def pickSecond (n i0 : Nat) (g : Nat → Nat) (k fuel : Nat) : Option Nat :=
  let j := g k % n
  if j = i0 then
    match fuel with
    | 0 => none
    | fuel + 1 => pickSecond n i0 g (k + 1) fuel
  else some j

/-- The `indexes` slice of `autoAssignReviewers` after the resampling
loop: one draw for a single-candidate pool, two distinct draws
otherwise. -/
def pickIndexes (n : Nat) (g : Nat → Nat) (fuel : Nat) : Option (List Nat) :=
  let i0 := g 0 % n
  if n > 1 then (pickSecond n i0 g 1 fuel).map (fun i1 => [i0, i1])
  else some [i0]

/-- `PRUseCase.autoAssignReviewers`: the candidate pool is the active
team-mates excluding the given user; an empty pool fails with
`NoCandidates`; otherwise indices are drawn, and the reviewer ids are
taken as `candidates[i].ID` for the loop counter `i < len(indexes)` — the
drawn index values themselves are not used — which is the first
`len(indexes)` pool members. -/
def autoAssignReviewers (users : List User) (teamID : Nat) (excludeUserID : String)
    (g : Nat → Nat) (fuel : Nat) : Option (Except DomainError (List String)) :=
  let candidates := findActiveByTeamID users teamID excludeUserID
  if candidates.length = 0 then some (.error .noCandidates)
  else
    match pickIndexes candidates.length g fuel with
    | none => none
    | some indexes => some (.ok ((candidates.take indexes.length).map User.id))

/-- `PRUseCase.CreatePR`: resolve the author (any lookup failure becomes
`UserNotFound`), auto-assign reviewers from the author's team, build the
record with status `OPEN`, and persist it with `SavePR`.  The state is
returned alongside the result; an error leaves it unchanged (each
repository write is a single transaction). -/
def createPR (store : Store) (prID title authorID : String) (g : Nat → Nat)
    (fuel now : Nat) : Option (Store × Except DomainError PullRequest) :=
  match findUserByID store.users authorID with
  | .error _ => some (store, .error .userNotFound)
  | .ok author =>
    match autoAssignReviewers store.users author.teamID authorID g fuel with
    | none => none
    | some (.error e) => some (store, .error e)
    | some (.ok reviewers) =>
      let pr : PullRequest :=
        ⟨prID, title, authorID, PRStatusOpen, none, none, reviewers⟩
      match savePR store pr now with
      | .error e => some (store, .error e)
      | .ok (pr, store') => some (store', .ok pr)

/-- `PRUseCase.GetPR`. -/
def getPR (store : Store) (id : String) : Except DomainError PullRequest :=
  findPRByID store id

/-- `PRUseCase.MergePR`: fetch the PR; if it is already `MERGED` return it
as is; otherwise set status `MERGED` and `merged_at := now` and persist
via `UpdateStatus`. -/
def mergePR (store : Store) (prID : String) (now : Nat) :
    Store × Except DomainError PullRequest :=
  match findPRByID store prID with
  | .error e => (store, .error e)
  | .ok pr =>
    if pr.status = PRStatusMerged then (store, .ok pr)
    else
      let pr := { pr with status := PRStatusMerged, mergedAt := some now }
      match updateStatus store prID PRStatusMerged (some now) with
      | .error e => (store, .error e)
      | .ok store' => (store', .ok pr)

/-- `PRUseCase.selectRandomReviewer`: active team-mates excluding the
replaced reviewer, further filtered to those not already assigned to the
PR; an empty filtered pool fails with `NoCandidates`, otherwise one
candidate is drawn (`r` is the `rand.Intn` draw). -/
def selectRandomReviewer (users : List User) (pr : PullRequest) (teamID : Nat)
    (excludeUserID : String) (r : Nat) : Except DomainError String :=
  let candidates := findActiveByTeamID users teamID excludeUserID
  let availableCandidates :=
    candidates.filter (fun c => !pr.assignedReviewers.contains c.id)
  if availableCandidates.length = 0 then .error .noCandidates
  else .ok ((availableCandidates.getD (r % availableCandidates.length)
    ⟨"", "", 0, "", false⟩).id)

/-- `PRUseCase.ReassignReviewer`: fetch the PR; fail with `PRMerged` on a
merged PR, then with `ReviewerNotAssigned` when the old reviewer is not in
the assigned set; resolve the old reviewer's team, select a replacement,
and atomically replace via `ReplaceReviewer`. -/
def reassignReviewer (store : Store) (prID oldReviewerID : String) (r : Nat) :
    Store × Except DomainError String :=
  match findPRByID store prID with
  | .error e => (store, .error e)
  | .ok pr =>
    if pr.status = PRStatusMerged then (store, .error .prMerged)
    else if !pr.assignedReviewers.contains oldReviewerID then
      (store, .error .reviewerNotAssigned)
    else
      match findUserByID store.users oldReviewerID with
      | .error e => (store, .error e)
      | .ok oldReviewer =>
        match selectRandomReviewer store.users pr oldReviewer.teamID oldReviewerID r with
        | .error e => (store, .error e)
        | .ok newReviewerID =>
          match replaceReviewer store prID oldReviewerID newReviewerID with
          | .error e => (store, .error e)
          | .ok store' => (store', .ok newReviewerID)

/-! ## Team use case (team use-case file) -/

/-- `domain.TeamMember`. -/
structure TeamMember where
  userID : String
  username : String
  isActive : Bool
deriving Repr, DecidableEq

/-- `domain.Team`: generated integer id, unique name, member list. -/
structure Team where
  id : Nat
  name : String
  members : List TeamMember
deriving Repr, DecidableEq

/-- `TeamUseCase.member2user`. -/
def member2user (m : TeamMember) (teamID : Nat) (teamName : String) : User :=
  ⟨m.userID, m.username, teamID, teamName, m.isActive⟩

/-- `TeamUseCase.user2member`. -/
def user2member (u : User) : TeamMember :=
  ⟨u.id, u.username, u.isActive⟩

/-- `TeamUseCase.CreateTeam` on the success path: `SaveTeam` fills in the
generated id, then the loop ranges over the member list as it was when the
loop started (Go's `range` snapshots the slice header) while appending the
converted copy of each member to `team.Members`. -/
def createTeam (team : Team) (genID : Nat) : Team :=
  let t := { team with id := genID }
  { t with
    members := t.members.foldl
      (fun acc m => acc ++ [user2member (member2user m t.id t.name)]) t.members }

/-! ## Demo fixtures

Concrete stores used by the witnesses and counterexamples. -/

/-- A team of three active users; `a` authors the demo PRs. -/
def demoUsers : List User :=
  [⟨"a", "alice", 1, "devs", true⟩,
   ⟨"b", "bob", 1, "devs", true⟩,
   ⟨"c", "carol", 1, "devs", true⟩]

/-- An empty store over `demoUsers`. -/
def demoStore : Store := ⟨[], [], demoUsers⟩

/-- A stream of `rand.Intn` draws: `0, 1, 2, …`. -/
def demoG : Nat → Nat := fun k => k

/-! ## Helper lemmas -/

theorem mem_findActiveByTeamID {users : List User} {teamID : Nat}
    {excludeUserID : String} {u : User} :
    u ∈ findActiveByTeamID users teamID excludeUserID ↔
      u ∈ users ∧ u.teamID = teamID ∧ u.isActive = true ∧ u.id ≠ excludeUserID := by
  simp [findActiveByTeamID, List.mem_filter, and_assoc]

theorem findActiveByTeamID_sublist (users : List User) (teamID : Nat)
    (excludeUserID : String) :
    (findActiveByTeamID users teamID excludeUserID).Sublist users :=
  List.filter_sublist users

theorem foldl_append_singleton {α β : Type} (f : α → β) (l : List α)
    (init : List β) :
    l.foldl (fun acc m => acc ++ [f m]) init = init ++ l.map f := by
  induction l generalizing init with
  | nil => simp
  | cons x xs ih => simp [List.foldl_cons, ih]

theorem pickIndexes_length {n : Nat} {g : Nat → Nat} {fuel : Nat} {idx : List Nat}
    (h : pickIndexes n g fuel = some idx) :
    idx.length = if n > 1 then 2 else 1 := by
  unfold pickIndexes at h
  split at h
  · rename_i hn
    cases hs : pickSecond n (g 0 % n) g 1 fuel with
    | none => simp [hs] at h
    | some i1 =>
        simp [hs] at h
        simp [← h, if_pos hn]
  · rename_i hn
    simp at h
    simp [← h, if_neg hn]

theorem autoAssignReviewers_ok_eq {users : List User} {teamID : Nat}
    {excl : String} {g : Nat → Nat} {fuel : Nat} {reviewers : List String}
    (h : autoAssignReviewers users teamID excl g fuel = some (.ok reviewers)) :
    findActiveByTeamID users teamID excl ≠ [] ∧
      reviewers = ((findActiveByTeamID users teamID excl).take
        (min 2 (findActiveByTeamID users teamID excl).length)).map User.id := by
  unfold autoAssignReviewers at h
  simp only [] at h
  split at h
  · simp_all
  · rename_i hne
    constructor
    · intro hnil
      simp [hnil] at hne
    · cases hp : pickIndexes (findActiveByTeamID users teamID excl).length g fuel with
      | none => simp [hp] at h
      | some idx =>
          simp [hp] at h
          have hlen := pickIndexes_length hp
          have hmin : idx.length =
              min 2 (findActiveByTeamID users teamID excl).length := by
            rw [hlen, Nat.min_def]
            split <;> split <;> omega
          rw [← h, hmin, List.map_take]

theorem autoAssignReviewers_mem {users : List User} {teamID : Nat}
    {excl : String} {g : Nat → Nat} {fuel : Nat} {reviewers : List String}
    (h : autoAssignReviewers users teamID excl g fuel = some (.ok reviewers))
    {rid : String} (hrid : rid ∈ reviewers) :
    ∃ u ∈ users, u.id = rid ∧ u.teamID = teamID ∧ u.isActive = true ∧ rid ≠ excl := by
  obtain ⟨-, heq⟩ := autoAssignReviewers_ok_eq h
  subst heq
  obtain ⟨u, hu, rfl⟩ := List.mem_map.mp hrid
  have hu' : u ∈ findActiveByTeamID users teamID excl :=
    List.mem_of_mem_take hu
  obtain ⟨hmem, ht, ha, hne⟩ := mem_findActiveByTeamID.mp hu'
  exact ⟨u, hmem, rfl, ht, ha, hne⟩

theorem savePR_ok_spec {store : Store} {pr pr' : PullRequest} {now : Nat}
    {store' : Store}
    (h : savePR store pr now = .ok (pr', store')) :
    pr' = (if pr.createdAt.isNone then { pr with createdAt := some now } else pr) ∧
      store'.users = store.users ∧
      store'.prReviewers = pr.assignedReviewers.foldl
        (fun acc reviewerID =>
          if acc.contains (pr.id, reviewerID) then acc else acc ++ [(pr.id, reviewerID)])
        store.prReviewers ∧
      store'.pullRequests =
        (if store.pullRequests.any (fun r => r.id == pr.id) then
          store.pullRequests.map (fun r =>
            if r.id == pr.id then
              { r with title := pr.title, status := pr.status, mergedAt := pr.mergedAt }
            else r)
        else
          store.pullRequests ++
            [⟨pr.id, pr.title, pr.authorID, pr.status,
              (if pr.createdAt.isNone then some now else pr.createdAt), pr.mergedAt⟩]) := by
  obtain ⟨pid, ptitle, pauthor, pstatus, pcreated, pmerged, previewers⟩ := pr
  cases pcreated with
  | none =>
    unfold savePR at h
    simp only [Option.isNone_none, Option.isNone_some, Bool.false_eq_true,
      eq_self_iff_true, if_true, if_false] at h ⊢
    split at h
    · simp at h
    · split at h
      · simp at h
      · simp only [Except.ok.injEq, Prod.mk.injEq] at h
        obtain ⟨h1, h2⟩ := h
        subst h1
        subst h2
        exact ⟨rfl, rfl, rfl, rfl⟩
  | some t =>
    unfold savePR at h
    simp only [Option.isNone_none, Option.isNone_some, Bool.false_eq_true,
      eq_self_iff_true, if_true, if_false] at h ⊢
    split at h
    · simp at h
    · split at h
      · simp at h
      · simp only [Except.ok.injEq, Prod.mk.injEq] at h
        obtain ⟨h1, h2⟩ := h
        subst h1
        subst h2
        exact ⟨rfl, rfl, rfl, rfl⟩

/-- C10: for every team with a non-empty member list, a successful
`CreateTeam` returns a team whose member list is the supplied list followed
by a converted copy of itself — each supplied member occurs twice and the
length doubles — because the loop appends converted members to the slice it
ranges over. -/
theorem createTeam_duplicates_members (team : Team) (genID : Nat)
    (h : team.members ≠ []) :
    (createTeam team genID).members = team.members ++ team.members ∧
      (createTeam team genID).members.length = 2 * team.members.length ∧
      ∀ m : TeamMember, (createTeam team genID).members.count m
        = 2 * team.members.count m := by
  have hfun : (fun m : TeamMember => user2member (member2user m genID team.name))
      = fun m => m := rfl
  have hmembers : (createTeam team genID).members = team.members ++ team.members := by
    simp [createTeam, foldl_append_singleton, hfun]
  refine ⟨hmembers, ?_, ?_⟩
  · rw [hmembers, List.length_append]
    omega
  · intro m
    rw [hmembers, List.count_append]
    omega

/-- A concrete team for the C10 witness. -/
def demoTeam : Team :=
  ⟨0, "devops", [⟨"d1", "dev1", true⟩, ⟨"d2", "dev2", false⟩]⟩

theorem createTeam_duplicates_members_witness :
    demoTeam.members ≠ [] ∧
      ((createTeam demoTeam 7).members = demoTeam.members ++ demoTeam.members ∧
        (createTeam demoTeam 7).members.length = 2 * demoTeam.members.length ∧
        ∀ m : TeamMember, (createTeam demoTeam 7).members.count m
          = 2 * demoTeam.members.count m) :=
  ⟨by decide, createTeam_duplicates_members demoTeam 7 (by decide)⟩

/-- C2: for every successful `CreatePR` call, the returned PR carries the
call's author id and the author is not a member of its assigned-reviewer
set: the candidate pool excludes the author and reviewers are drawn only
from that pool. -/
theorem createPR_author_excluded (store : Store) (prID title authorID : String)
    (g : Nat → Nat) (fuel now : Nat) (store' : Store) (pr : PullRequest)
    (hrun : createPR store prID title authorID g fuel now = some (store', .ok pr)) :
    pr.authorID = authorID ∧ authorID ∉ pr.assignedReviewers := by
  unfold createPR at hrun
  split at hrun
  · simp at hrun
  · rename_i author hu
    split at hrun
    · exact absurd hrun (by simp)
    · simp at hrun
    · rename_i reviewers ha
      simp only [] at hrun
      split at hrun
      · simp at hrun
      · rename_i p pr2 store2 hs
        simp only [Option.some.injEq, Prod.mk.injEq, Except.ok.injEq] at hrun
        obtain ⟨h1, h2⟩ := hrun
        subst h1
        subst h2
        obtain ⟨hpr2, -, -, -⟩ := savePR_ok_spec hs
        simp only [Option.isNone_none, eq_self_iff_true, if_true] at hpr2
        subst hpr2
        refine ⟨rfl, ?_⟩
        intro hmem
        obtain ⟨u, hu', hid, ht, hact, hne⟩ := autoAssignReviewers_mem ha hmem
        exact hne rfl

/-- The demo `CreatePR` run and its projections, used by witnesses. -/
def demoCreate : Option (Store × Except DomainError PullRequest) :=
  createPR demoStore "pr1" "t" "a" demoG 5 100

/-- The store after the demo `CreatePR` run. -/
def demoCreateStore : Store :=
  (demoCreate.getD (demoStore, .error .noCandidates)).1

/-- The PR returned by the demo `CreatePR` run. -/
def demoCreatePR : PullRequest :=
  (demoCreate.getD (demoStore, .error .noCandidates)).2.toOption.getD default

theorem createPR_author_excluded_witness :
    demoCreatePR.authorID = "a" ∧ "a" ∉ demoCreatePR.assignedReviewers :=
  createPR_author_excluded demoStore "pr1" "t" "a" demoG 5 100
    demoCreateStore demoCreatePR (by rfl)

/-- Inversion of a successful `createPR` run: the author resolved, the
selection succeeded, the record was persisted, and the returned PR is the
built record with its creation timestamp stamped. -/
theorem createPR_ok_inv {store : Store} {prID title authorID : String}
    {g : Nat → Nat} {fuel now : Nat} {store' : Store} {pr : PullRequest}
    (hrun : createPR store prID title authorID g fuel now = some (store', .ok pr)) :
    ∃ author reviewers,
      findUserByID store.users authorID = .ok author ∧
      autoAssignReviewers store.users author.teamID authorID g fuel
        = some (.ok reviewers) ∧
      pr = ⟨prID, title, authorID, PRStatusOpen, some now, none, reviewers⟩ ∧
      savePR store ⟨prID, title, authorID, PRStatusOpen, none, none, reviewers⟩ now
        = .ok (pr, store') := by
  unfold createPR at hrun
  split at hrun
  · simp at hrun
  · rename_i author hu
    split at hrun
    · exact absurd hrun (by simp)
    · simp at hrun
    · rename_i reviewers ha
      simp only [] at hrun
      split at hrun
      · simp at hrun
      · rename_i p pr2 store2 hs
        simp only [Option.some.injEq, Prod.mk.injEq, Except.ok.injEq] at hrun
        obtain ⟨h1, h2⟩ := hrun
        subst h1
        subst h2
        obtain ⟨hpr2, -, -, -⟩ := savePR_ok_spec hs
        simp only [Option.isNone_none, eq_self_iff_true, if_true] at hpr2
        subst hpr2
        exact ⟨author, reviewers, hu, ha, rfl, hs⟩

/-- C1: for every successful `CreatePR`, a candidate pool of two or more
yields exactly two distinct reviewers; a pool of exactly one yields one
reviewer; an empty pool makes the call fail with `NoCandidates`, leaving
the store untouched (`SavePR` is never reached). -/
theorem createPR_reviewer_count (store : Store) (prID title authorID : String)
    (g : Nat → Nat) (fuel now : Nat) (author : User)
    (hnodup : (store.users.map User.id).Nodup)
    (hauthor : findUserByID store.users authorID = .ok author) :
    (2 ≤ (findActiveByTeamID store.users author.teamID authorID).length →
      ∀ store' pr, createPR store prID title authorID g fuel now
          = some (store', .ok pr) →
        pr.assignedReviewers.length = 2 ∧ pr.assignedReviewers.Nodup) ∧
    ((findActiveByTeamID store.users author.teamID authorID).length = 1 →
      ∀ store' pr, createPR store prID title authorID g fuel now
          = some (store', .ok pr) →
        pr.assignedReviewers.length = 1) ∧
    ((findActiveByTeamID store.users author.teamID authorID).length = 0 →
      createPR store prID title authorID g fuel now
        = some (store, .error .noCandidates)) := by
  have hsub : ∀ k : Nat,
      (((findActiveByTeamID store.users author.teamID authorID).take k).map
        User.id).Sublist (store.users.map User.id) := fun k =>
    ((List.take_sublist _ _).map _).trans ((List.filter_sublist _).map _)
  refine ⟨?_, ?_, ?_⟩
  · intro hge store' pr hrun
    obtain ⟨author', reviewers, hu, ha, hpr, -⟩ := createPR_ok_inv hrun
    rw [hauthor] at hu
    obtain rfl : author = author' := by simpa using hu
    obtain ⟨-, hrev⟩ := autoAssignReviewers_ok_eq ha
    subst hpr
    simp only [hrev]
    constructor
    · simp [List.length_take]
      omega
    · exact hnodup.sublist (hsub _)
  · intro hone store' pr hrun
    obtain ⟨author', reviewers, hu, ha, hpr, -⟩ := createPR_ok_inv hrun
    rw [hauthor] at hu
    obtain rfl : author = author' := by simpa using hu
    obtain ⟨-, hrev⟩ := autoAssignReviewers_ok_eq ha
    subst hpr
    simp only [hrev]
    simp [List.length_take, hone]
  · intro hzero
    have hnil : findActiveByTeamID store.users author.teamID authorID = [] :=
      List.eq_nil_of_length_eq_zero hzero
    unfold createPR
    rw [hauthor]
    unfold autoAssignReviewers
    simp [hnil]

theorem createPR_reviewer_count_witness :
    (2 ≤ (findActiveByTeamID demoStore.users 1 "a").length →
      ∀ store' pr, createPR demoStore "pr1" "t" "a" demoG 5 100
          = some (store', .ok pr) →
        pr.assignedReviewers.length = 2 ∧ pr.assignedReviewers.Nodup) ∧
    ((findActiveByTeamID demoStore.users 1 "a").length = 1 →
      ∀ store' pr, createPR demoStore "pr1" "t" "a" demoG 5 100
          = some (store', .ok pr) →
        pr.assignedReviewers.length = 1) ∧
    ((findActiveByTeamID demoStore.users 1 "a").length = 0 →
      createPR demoStore "pr1" "t" "a" demoG 5 100
        = some (demoStore, .error .noCandidates)) :=
  createPR_reviewer_count demoStore "pr1" "t" "a" demoG 5 100
    ⟨"a", "alice", 1, "devs", true⟩ (by decide) (by rfl)

/-- The candidate pool of the C6 run: three active users of team 1, none
of them the excluded author. -/
def demoPoolUsers : List User :=
  [⟨"u1", "n1", 1, "devs", true⟩, ⟨"u2", "n2", 1, "devs", true⟩,
   ⟨"u3", "n3", 1, "devs", true⟩]

/-- A stream of `rand.Intn` draws: `1, 2, 3, …`. -/
def demoShiftG : Nat → Nat := fun k => k + 1

/-- C6: the selection loop draws the distinct random indices 1 and 2 over
the pool `[u1, u2, u3]`, yet `autoAssignReviewers` returns `[u1, u2]` —
the first two pool members — because the source indexes `candidates` by
the loop counter instead of by the drawn indices; the members at the drawn
indices would have been `[u2, u3]`. -/
theorem autoAssignReviewers_ignores_drawn_indices :
    pickIndexes (findActiveByTeamID demoPoolUsers 1 "author").length demoShiftG 5
        = some [1, 2] ∧
      (findActiveByTeamID demoPoolUsers 1 "author").map User.id
        = ["u1", "u2", "u3"] ∧
      autoAssignReviewers demoPoolUsers 1 "author" demoShiftG 5
        = some (.ok ["u1", "u2"]) := by
  refine ⟨by decide, by decide, by rfl⟩

/-- The solo team of the C9 scenario: `solo1` is its only member. -/
def soloUsers : List User := [⟨"solo1", "solo", 1, "solos", true⟩]

/-- A store over the solo team. -/
def soloStore : Store := ⟨[], [], soloUsers⟩

/-- C9 counterexample: with `solo1` the only member of their team,
`CreatePR` does not succeed with an empty reviewer set — it fails with
`NoCandidates` and the store is unchanged. -/
theorem createPR_solo_counterexample :
    createPR soloStore "pr-solo" "t" "solo1" demoG 5 100
      = some (soloStore, .error .noCandidates) := by rfl

/-- C9 amended: when the author is the only member of their team, the
candidate pool is empty after excluding the author, so `CreatePR` fails
with `NoCandidates` and no PR is persisted (the store is unchanged). -/
theorem createPR_solo_author_fails (store : Store) (prID title authorID : String)
    (g : Nat → Nat) (fuel now : Nat) (author : User)
    (hauthor : findUserByID store.users authorID = .ok author)
    (hsolo : ∀ u ∈ store.users, u.teamID = author.teamID → u.id = authorID) :
    createPR store prID title authorID g fuel now
      = some (store, .error .noCandidates) := by
  have hnil : findActiveByTeamID store.users author.teamID authorID = [] := by
    rw [List.eq_nil_iff_forall_not_mem]
    intro u hu
    obtain ⟨hmem, ht, hact, hne⟩ := mem_findActiveByTeamID.mp hu
    exact hne (hsolo u hmem ht)
  unfold createPR
  rw [hauthor]
  unfold autoAssignReviewers
  simp [hnil]

theorem createPR_solo_author_fails_witness :
    createPR soloStore "pr-solo2" "t" "solo1" demoG 5 100
      = some (soloStore, .error .noCandidates) :=
  createPR_solo_author_fails soloStore "pr-solo2" "t" "solo1" demoG 5 100
    ⟨"solo1", "solo", 1, "solos", true⟩ (by rfl) (by decide)

theorem find?_map_update (rows : List PRRow) (prID : String) (f : PRRow → PRRow)
    (hf : ∀ r, (f r).id = r.id) {r : PRRow}
    (h : rows.find? (fun r => r.id == prID) = some r) :
    (rows.map (fun r => if r.id == prID then f r else r)).find?
      (fun r => r.id == prID) = some (f r) := by
  induction rows with
  | nil => simp at h
  | cons x xs ih =>
    by_cases hx : x.id = prID
    · simp [List.find?, hx] at h
      subst h
      simp [List.find?, List.map_cons, hx, hf]
    · have hbx : (x.id == prID) = false := by simp [hx]
      simp [List.find?, hbx] at h
      simp only [List.map_cons, hbx, Bool.false_eq_true, if_false, List.find?]
      exact ih h

theorem findPRByID_ok_inv {store : Store} {prID : String} {pr : PullRequest}
    (h : findPRByID store prID = .ok pr) :
    ∃ r, store.pullRequests.find? (fun r => r.id == prID) = some r ∧
      pr = ⟨r.id, r.title, r.authorID, r.status, r.createdAt, r.mergedAt,
        reviewersOf store prID⟩ := by
  unfold findPRByID at h
  split at h
  · simp at h
  · rename_i r hr
    simp only [Except.ok.injEq] at h
    exact ⟨r, hr, h.symm⟩

theorem findPRByID_error_inv {store : Store} {prID : String} {e : DomainError}
    (h : findPRByID store prID = .error e) : e = .prNotFound := by
  unfold findPRByID at h
  split at h
  · simp at h
    exact h.symm
  · simp at h

theorem findUserByID_error_inv {users : List User} {id : String} {e : DomainError}
    (h : findUserByID users id = .error e) : e = .userNotFound := by
  unfold findUserByID at h
  split at h
  · simp at h
  · simp at h
    exact h.symm

theorem selectRandomReviewer_error_inv {users : List User} {pr : PullRequest}
    {teamID : Nat} {excl : String} {r : Nat} {e : DomainError}
    (h : selectRandomReviewer users pr teamID excl r = .error e) :
    e = .noCandidates := by
  unfold selectRandomReviewer at h
  simp only [] at h
  split at h
  · simp at h
    exact h.symm
  · simp at h

theorem length_filter_eq_length {α : Type} {p : α → Bool} {l : List α}
    (h : (l.filter p).length = l.length) : ∀ a ∈ l, p a := by
  induction l with
  | nil => simp
  | cons x xs ih =>
    by_cases hx : p x
    · intro a ha
      rcases List.mem_cons.mp ha with rfl | ha'
      · exact hx
      · refine ih ?_ a ha'
        simpa [hx] using h
    · exfalso
      have hle := List.length_filter_le p xs
      simp [hx] at h
      omega

/-- C3: `MergePR` is idempotent: on an already `MERGED` PR it returns the
existing record with the store untouched (so the stored `merged_at` is not
re-stamped); merging an `OPEN` PR stamps status and `merged_at` once, and
a second merge at any later time returns the same record and state
unchanged. -/
theorem mergePR_idempotent (store : Store) (prID : String) (now t2 : Nat)
    (pr : PullRequest) (hfind : findPRByID store prID = .ok pr) :
    (pr.status = PRStatusMerged → mergePR store prID now = (store, .ok pr)) ∧
    (pr.status = PRStatusOpen →
      ∀ store1 pr1, mergePR store prID now = (store1, .ok pr1) →
        pr1.status = PRStatusMerged ∧ pr1.mergedAt = some now ∧
        mergePR store1 prID t2 = (store1, .ok pr1)) := by
  constructor
  · intro hm
    unfold mergePR
    rw [hfind]
    simp [hm]
  · intro hopen store1 pr1 hrun
    obtain ⟨r0, hr0, hpr⟩ := findPRByID_ok_inv hfind
    have hnm : ¬(pr.status = PRStatusMerged) := by
      rw [hopen]
      decide
    have hany : store.pullRequests.any (fun r => r.id == prID) = true := by
      rw [List.any_eq_true]
      have hmem := List.mem_of_find?_eq_some hr0
      have hp := List.find?_some hr0
      exact ⟨r0, hmem, hp⟩
    unfold mergePR at hrun
    rw [hfind] at hrun
    simp only [hnm, if_false] at hrun
    unfold updateStatus at hrun
    simp only [hany, if_true, Option.getD_some] at hrun
    simp only [Prod.mk.injEq, Except.ok.injEq] at hrun
    obtain ⟨h1, h2⟩ := hrun
    subst h1
    subst h2
    refine ⟨rfl, rfl, ?_⟩
    have hfind1 : findPRByID
        { store with pullRequests := store.pullRequests.map (fun r =>
            if r.id == prID then
              { r with status := PRStatusMerged, mergedAt := some now } else r) }
        prID
        = .ok { pr with status := PRStatusMerged, mergedAt := some now } := by
      unfold findPRByID
      rw [find?_map_update store.pullRequests prID
        (fun r => { r with status := PRStatusMerged, mergedAt := some now })
        (fun r => rfl) hr0]
      subst hpr
      rfl
    unfold mergePR
    rw [hfind1]
    simp

/-- A store holding one open PR `pr1` reviewed by `b`, for the C3
witness. -/
def demoOpenStore : Store :=
  ⟨[⟨"pr1", "t", "a", "OPEN", some 1, none⟩], [("pr1", "b")], demoUsers⟩

/-- The open PR of `demoOpenStore` as `FindByID` returns it. -/
def demoOpenPR : PullRequest :=
  ⟨"pr1", "t", "a", "OPEN", some 1, none, ["b"]⟩

theorem mergePR_idempotent_witness :
    (demoOpenPR.status = PRStatusMerged →
      mergePR demoOpenStore "pr1" 50 = (demoOpenStore, .ok demoOpenPR)) ∧
    (demoOpenPR.status = PRStatusOpen →
      ∀ store1 pr1, mergePR demoOpenStore "pr1" 50 = (store1, .ok pr1) →
        pr1.status = PRStatusMerged ∧ pr1.mergedAt = some 50 ∧
        mergePR store1 "pr1" 99 = (store1, .ok pr1)) :=
  mergePR_idempotent demoOpenStore "pr1" 50 99 demoOpenPR (by rfl)

theorem replaceReviewer_rna_inv {store : Store} {prID old new : String}
    (h : replaceReviewer store prID old new = .error .reviewerNotAssigned) :
    old ∉ reviewersOf store prID := by
  unfold replaceReviewer at h
  simp only [] at h
  split at h
  · rename_i hlen
    intro hmem
    obtain ⟨p, hp, hsnd⟩ := List.mem_map.mp hmem
    obtain ⟨hpmem, hpfst⟩ := List.mem_filter.mp hp
    have hall := length_filter_eq_length (l := store.prReviewers)
      (p := fun p => !(p.1 == prID && p.2 == old)) (by simpa using hlen)
    have hthis := hall p hpmem
    simp at hthis hpfst
    rcases hthis with h1 | h2
    · exact h1 hpfst
    · exact h2 hsnd
  · split at h
    · simp at h
    · simp at h

/-- C5: `ReassignReviewer` checks its preconditions in order — unknown PR
id fails `PRNotFound`; an existing `MERGED` PR always fails `PRMerged`
whether or not the reviewer is assigned; an existing non-merged PR with
the reviewer absent fails `ReviewerNotAssigned`; and conversely a
`ReviewerNotAssigned` failure only arises in that last situation. -/
theorem reassignReviewer_error_precedence (store : Store)
    (prID oldReviewerID : String) (r : Nat) :
    (findPRByID store prID = .error .prNotFound →
      reassignReviewer store prID oldReviewerID r = (store, .error .prNotFound)) ∧
    (∀ pr, findPRByID store prID = .ok pr → pr.status = PRStatusMerged →
      reassignReviewer store prID oldReviewerID r = (store, .error .prMerged)) ∧
    (∀ pr, findPRByID store prID = .ok pr → pr.status ≠ PRStatusMerged →
      oldReviewerID ∉ pr.assignedReviewers →
      reassignReviewer store prID oldReviewerID r
        = (store, .error .reviewerNotAssigned)) ∧
    (∀ store2, reassignReviewer store prID oldReviewerID r
        = (store2, .error .reviewerNotAssigned) →
      ∃ pr, findPRByID store prID = .ok pr ∧ pr.status ≠ PRStatusMerged ∧
        oldReviewerID ∉ pr.assignedReviewers) := by
  refine ⟨?_, ?_, ?_, ?_⟩
  · intro h
    unfold reassignReviewer
    rw [h]
  · intro pr hok hm
    unfold reassignReviewer
    rw [hok]
    simp [hm]
  · intro pr hok hnm hmem
    unfold reassignReviewer
    rw [hok]
    simp [hnm, hmem]
  · intro store2 hres
    unfold reassignReviewer at hres
    split at hres
    · rename_i e he
      have he' := findPRByID_error_inv he
      subst he'
      simp at hres
    · rename_i pr hok
      split at hres
      · simp at hres
      · rename_i hnm
        split at hres
        · rename_i hnc
          refine ⟨pr, hok, hnm, ?_⟩
          simpa using hnc
        · rename_i hcont
          split at hres
          · rename_i e he
            have he' := findUserByID_error_inv he
            subst he'
            simp at hres
          · rename_i oldRev hOldRev
            split at hres
            · rename_i e he
              have he' := selectRandomReviewer_error_inv he
              subst he'
              simp at hres
            · rename_i newID hsel
              split at hres
              · rename_i e he
                simp only [Prod.mk.injEq, Except.error.injEq] at hres
                obtain ⟨-, he2⟩ := hres
                subst he2
                have hninv := replaceReviewer_rna_inv he
                obtain ⟨r0, hr0, hpr⟩ := findPRByID_ok_inv hok
                exfalso
                apply hninv
                have hin : oldReviewerID ∈ pr.assignedReviewers := by
                  have hct := Bool.of_not_eq_true hcont
                  simp at hct
                  simpa using hct
                rw [hpr] at hin
                simpa using hin
              · simp at hres

theorem selectRandomReviewer_ok {users : List User} {pr : PullRequest}
    {teamID : Nat} {excl : String} {r : Nat} {newID : String}
    (h : selectRandomReviewer users pr teamID excl r = .ok newID) :
    ∃ u, u ∈ findActiveByTeamID users teamID excl ∧ u.id = newID ∧
      newID ∉ pr.assignedReviewers := by
  unfold selectRandomReviewer at h
  simp only [] at h
  split at h
  · simp at h
  · rename_i hne
    simp only [Except.ok.injEq] at h
    have hpos : 0 < ((findActiveByTeamID users teamID excl).filter
        (fun c => !pr.assignedReviewers.contains c.id)).length :=
      Nat.pos_of_ne_zero hne
    have hlt := Nat.mod_lt r hpos
    have hmem : ((findActiveByTeamID users teamID excl).filter
          (fun c => !pr.assignedReviewers.contains c.id)).getD
        (r % ((findActiveByTeamID users teamID excl).filter
          (fun c => !pr.assignedReviewers.contains c.id)).length)
        ⟨"", "", 0, "", false⟩
        ∈ (findActiveByTeamID users teamID excl).filter
          (fun c => !pr.assignedReviewers.contains c.id) := by
      rw [List.getD_eq_getElem?_getD, List.getElem?_eq_getElem hlt]
      simpa using List.getElem_mem hlt
    obtain ⟨hmem', hfilt⟩ := List.mem_filter.mp hmem
    refine ⟨_, hmem', h, ?_⟩
    rw [← h]
    simpa using hfilt

theorem replaceReviewer_ok_spec {store : Store} {prID old new : String}
    {store' : Store} (h : replaceReviewer store prID old new = .ok store') :
    store'.pullRequests = store.pullRequests ∧
      store'.users = store.users ∧
      store'.prReviewers
        = store.prReviewers.filter (fun p => !(p.1 == prID && p.2 == old))
            ++ [(prID, new)] := by
  unfold replaceReviewer at h
  simp only [] at h
  split at h
  · simp at h
  · split at h
    · simp at h
    · simp only [Except.ok.injEq] at h
      subst h
      exact ⟨rfl, rfl, rfl⟩

theorem reviewersOf_replace {store : Store} {prID old new : String}
    {store' : Store} (h : replaceReviewer store prID old new = .ok store') :
    reviewersOf store' prID
      = (reviewersOf store prID).filter (fun x => !(x == old)) ++ [new] := by
  obtain ⟨-, -, hrev⟩ := replaceReviewer_ok_spec h
  unfold reviewersOf
  rw [hrev, List.filter_append]
  have hsingle : ([((prID : String), new)].filter (fun p => p.1 == prID))
      = [(prID, new)] := by simp
  rw [hsingle, List.map_append]
  congr 1
  rw [List.filter_filter, List.filter_map, List.filter_filter]
  congr 1
  apply List.filter_congr
  intro p hp
  simp only [Function.comp]
  cases h1 : p.1 == prID <;> cases h2 : p.2 == old <;> simp [h1, h2]

theorem reviewersOf_nodup {store : Store} (prID : String)
    (h : store.prReviewers.Nodup) : (reviewersOf store prID).Nodup := by
  unfold reviewersOf
  refine List.Nodup.map_on ?_ (h.filter _)
  intro x hx y hy hxy
  obtain ⟨-, hx2⟩ := List.mem_filter.mp hx
  obtain ⟨-, hy2⟩ := List.mem_filter.mp hy
  simp at hx2 hy2
  exact Prod.ext (hx2.trans hy2.symm) hxy

theorem length_filter_ne_of_nodup {a : String} :
    ∀ {l : List String}, l.Nodup → a ∈ l →
      (l.filter (fun x => !(x == a))).length + 1 = l.length
  | [], _, hmem => by simp at hmem
  | x :: xs, hnd, hmem => by
    rcases List.mem_cons.mp hmem with rfl | hmem'
    · have hnotin : a ∉ xs := (List.nodup_cons.mp hnd).1
      have hkeep : xs.filter (fun y => !(y == a)) = xs := by
        rw [List.filter_eq_self]
        intro y hy
        simp
        rintro rfl
        exact hnotin hy
      simp [List.filter_cons, hkeep]
    · have hnd2 := (List.nodup_cons.mp hnd).2
      have hxa : (x == a) = false := by
        simp
        rintro rfl
        exact (List.nodup_cons.mp hnd).1 hmem'
      have ih := length_filter_ne_of_nodup hnd2 hmem'
      simp [List.filter_cons, hxa]
      omega

/-- C4: after a successful `ReassignReviewer(prID, old)`, the old reviewer
left the stored set, the returned reviewer joined it, the set size is
unchanged, and the new reviewer differs from the old one, was not
previously assigned, is active and belongs to the replaced reviewer's
team.  The `pr_reviewers` primary key (no duplicate rows) enters as the
`Nodup` hypothesis. -/
theorem reassignReviewer_postconditions (store : Store)
    (prID oldReviewerID : String) (r : Nat) (store' : Store) (newID : String)
    (hnodup : store.prReviewers.Nodup)
    (hrun : reassignReviewer store prID oldReviewerID r = (store', .ok newID)) :
    oldReviewerID ∉ reviewersOf store' prID ∧
      newID ∈ reviewersOf store' prID ∧
      (reviewersOf store' prID).length = (reviewersOf store prID).length ∧
      newID ≠ oldReviewerID ∧
      newID ∉ reviewersOf store prID ∧
      ∃ uOld uNew, findUserByID store.users oldReviewerID = .ok uOld ∧
        uNew ∈ store.users ∧ uNew.id = newID ∧ uNew.isActive = true ∧
        uNew.teamID = uOld.teamID := by
  unfold reassignReviewer at hrun
  split at hrun
  · simp at hrun
  · rename_i pr hok
    split at hrun
    · simp at hrun
    · rename_i hnm
      split at hrun
      · simp at hrun
      · rename_i hcont
        split at hrun
        · simp at hrun
        · rename_i oldRev hOldRev
          split at hrun
          · simp at hrun
          · rename_i newID2 hsel
            split at hrun
            · simp at hrun
            · rename_i store2 hrep
              simp only [Prod.mk.injEq, Except.ok.injEq] at hrun
              obtain ⟨h1, h2⟩ := hrun
              subst h1
              subst h2
              obtain ⟨r0, hr0, hpr⟩ := findPRByID_ok_inv hok
              have hassigned : pr.assignedReviewers = reviewersOf store prID := by
                rw [hpr]
              have hold_mem : oldReviewerID ∈ reviewersOf store prID := by
                rw [← hassigned]
                simpa using hcont
              obtain ⟨uNew, huNewPool, huNewID, huNewNotAssigned⟩ :=
                selectRandomReviewer_ok hsel
              obtain ⟨huNewMem, huNewTeam, huNewAct, huNewNe⟩ :=
                mem_findActiveByTeamID.mp huNewPool
              have hnew_ne : newID2 ≠ oldReviewerID := huNewID ▸ huNewNe
              have hnew_notin : newID2 ∉ reviewersOf store prID := by
                rw [← hassigned]
                exact huNewNotAssigned
              have hS := reviewersOf_replace hrep
              refine ⟨?_, ?_, ?_, hnew_ne, hnew_notin,
                oldRev, uNew, hOldRev, huNewMem, huNewID, huNewAct, huNewTeam⟩
              · rw [hS]
                intro hmem
                rcases List.mem_append.mp hmem with hl | hr
                · obtain ⟨-, hfilt⟩ := List.mem_filter.mp hl
                  simp at hfilt
                · simp at hr
                  exact hnew_ne hr.symm
              · rw [hS]
                exact List.mem_append.mpr (Or.inr (by simp))
              · rw [hS, List.length_append]
                have hlen := length_filter_ne_of_nodup
                  (reviewersOf_nodup prID hnodup) hold_mem
                simp only [List.length_singleton]
                omega

/-- The demo `ReassignReviewer` run over `demoOpenStore` and its
projections, used by the C4 witness. -/
def demoReassign : Store × Except DomainError String :=
  reassignReviewer demoOpenStore "pr1" "b" 0

/-- The store after the demo reassignment. -/
def demoReassignStore : Store := demoReassign.1

/-- The reviewer id returned by the demo reassignment. -/
def demoNewReviewer : String := demoReassign.2.toOption.getD ""

theorem reassignReviewer_postconditions_witness :
    "b" ∉ reviewersOf demoReassignStore "pr1" ∧
      demoNewReviewer ∈ reviewersOf demoReassignStore "pr1" ∧
      (reviewersOf demoReassignStore "pr1").length
        = (reviewersOf demoOpenStore "pr1").length ∧
      demoNewReviewer ≠ "b" ∧
      demoNewReviewer ∉ reviewersOf demoOpenStore "pr1" ∧
      ∃ uOld uNew, findUserByID demoOpenStore.users "b" = .ok uOld ∧
        uNew ∈ demoOpenStore.users ∧ uNew.id = demoNewReviewer ∧
        uNew.isActive = true ∧ uNew.teamID = uOld.teamID :=
  reassignReviewer_postconditions demoOpenStore "pr1" "b" 0
    demoReassignStore demoNewReviewer (by decide) (by rfl)

theorem any_id_of_find? {rows : List PRRow} {prID : String} {r0 : PRRow}
    (h : rows.find? (fun r => r.id == prID) = some r0) :
    rows.any (fun r => r.id == prID) = true := by
  rw [List.any_eq_true]
  have hmem := List.mem_of_find?_eq_some h
  have hp := List.find?_some h
  exact ⟨r0, hmem, hp⟩

/-- `MergePR` either leaves the `pull_requests` table unchanged or, for an
existing non-merged PR, rewrites exactly the rows with the given id to
status `MERGED`. -/
theorem mergePR_store (store : Store) (prID : String) (now : Nat) :
    (mergePR store prID now).1 = store ∨
    ∃ pr, findPRByID store prID = .ok pr ∧ pr.status ≠ PRStatusMerged ∧
      (mergePR store prID now).1
        = { store with pullRequests := store.pullRequests.map (fun r =>
            if r.id == prID then
              { r with status := PRStatusMerged, mergedAt := some now }
            else r) } := by
  unfold mergePR
  split
  · exact Or.inl rfl
  · rename_i pr hfind
    by_cases hm : pr.status = PRStatusMerged
    · rw [if_pos hm]
      exact Or.inl rfl
    · rw [if_neg hm]
      simp only []
      unfold updateStatus
      simp only [Option.getD_some]
      by_cases hany : store.pullRequests.any (fun rr => rr.id == prID) = true
      · rw [if_pos hany]
        exact Or.inr ⟨pr, hfind, hm, rfl⟩
      · rw [if_neg hany]
        exact Or.inl rfl

/-- A store holding a merged PR `pr1` authored by `a`, for the C7
counterexample. -/
def mergedStore : Store :=
  ⟨[⟨"pr1", "t", "a", "MERGED", some 1, some 2⟩], [], demoUsers⟩

/-- C7 counterexample: the stored status of `pr1` is `MERGED`, yet
`CreatePR` on the same id succeeds and the stored status afterwards is
`OPEN` — a core operation changed the status of a MERGED PR, and the
transition it performed was MERGED→OPEN, not OPEN→MERGED. -/
theorem mergedPR_reopened_by_create :
    ((mergedStore.pullRequests.find? (fun r => r.id == "pr1")).map PRRow.status
        = some PRStatusMerged) ∧
      (createPR mergedStore "pr1" "t2" "a" demoG 5 9).map
          (fun p => ((p.1.pullRequests.find? (fun r => r.id == "pr1")).map
            PRRow.status, p.2.toOption.map PullRequest.status))
        = some (some PRStatusOpen, some PRStatusOpen) :=
  ⟨rfl, rfl⟩

/-- C7 amended: `MergePR` returns a MERGED PR unchanged (state included)
and `ReassignReviewer` never modifies the `pull_requests` table at all;
a successful `CreatePR` stores status `OPEN` for the created id — even
when the pre-existing record was MERGED or CLOSED; `MergePR` sets any
existing non-MERGED PR (OPEN or CLOSED alike) to MERGED; and neither
`MergePR` nor `CreatePR` ever writes the status CLOSED — any CLOSED row
after a call was already a row of the store before it. -/
theorem pr_status_transitions (store : Store)
    (prID title authorID old : String) (g : Nat → Nat) (fuel now r : Nat) :
    (∀ pr, findPRByID store prID = .ok pr → pr.status = PRStatusMerged →
      mergePR store prID now = (store, .ok pr)) ∧
    ((reassignReviewer store prID old r).1.pullRequests = store.pullRequests) ∧
    (∀ store' pr, createPR store prID title authorID g fuel now
        = some (store', .ok pr) →
      ∀ row ∈ store'.pullRequests, row.id = prID → row.status = PRStatusOpen) ∧
    (∀ pr store' pr2, findPRByID store prID = .ok pr →
      pr.status ≠ PRStatusMerged → mergePR store prID now = (store', .ok pr2) →
      pr2.status = PRStatusMerged ∧
        ∀ row ∈ store'.pullRequests, row.id = prID →
          row.status = PRStatusMerged) ∧
    (∀ row ∈ (mergePR store prID now).1.pullRequests,
      row.status = PRStatusClosed → row ∈ store.pullRequests) ∧
    (∀ store' res, createPR store prID title authorID g fuel now
        = some (store', res) →
      ∀ row ∈ store'.pullRequests, row.status = PRStatusClosed →
        row ∈ store.pullRequests) := by
  have hopen_ne : PRStatusOpen ≠ PRStatusClosed := by decide
  have hmerged_ne : PRStatusMerged ≠ PRStatusClosed := by decide
  refine ⟨?_, ?_, ?_, ?_, ?_, ?_⟩
  · intro pr hok hm
    unfold mergePR
    rw [hok]
    simp [hm]
  · unfold reassignReviewer
    split
    · rfl
    · split
      · rfl
      · split
        · rfl
        · split
          · rfl
          · split
            · rfl
            · split
              · rfl
              · rename_i store2 hrep
                obtain ⟨hprs, -, -⟩ := replaceReviewer_ok_spec hrep
                exact hprs
  · intro store' pr hrun row hrow hid
    obtain ⟨author, reviewers, -, -, -, hsave⟩ := createPR_ok_inv hrun
    obtain ⟨-, -, -, hrows⟩ := savePR_ok_spec hsave
    by_cases hany : store.pullRequests.any (fun rr => rr.id == prID) = true
    · rw [if_pos hany] at hrows
      rw [hrows] at hrow
      obtain ⟨rr, hrr, hrr2⟩ := List.mem_map.mp hrow
      by_cases heq : rr.id = prID
      · rw [if_pos (by simpa using heq)] at hrr2
        rw [← hrr2]
      · rw [if_neg (by simpa using heq)] at hrr2
        exact absurd (hrr2 ▸ hid) heq
    · rw [if_neg hany] at hrows
      rw [hrows] at hrow
      rcases List.mem_append.mp hrow with hl | hr
      · exfalso
        apply hany
        rw [List.any_eq_true]
        exact ⟨row, hl, by simp [hid]⟩
      · simp at hr
        rw [hr]
  · intro pr store' pr2 hok hnm hrun
    obtain ⟨r0, hr0, hpr⟩ := findPRByID_ok_inv hok
    have hany := any_id_of_find? hr0
    unfold mergePR at hrun
    rw [hok] at hrun
    simp only [hnm, if_false] at hrun
    unfold updateStatus at hrun
    simp only [hany, if_true, Option.getD_some] at hrun
    simp only [Prod.mk.injEq, Except.ok.injEq] at hrun
    obtain ⟨h1, h2⟩ := hrun
    subst h1
    subst h2
    refine ⟨rfl, ?_⟩
    intro row hrow hid
    obtain ⟨rr, hrr, hrr2⟩ := List.mem_map.mp hrow
    by_cases heq : rr.id = prID
    · rw [if_pos (by simpa using heq)] at hrr2
      rw [← hrr2]
    · rw [if_neg (by simpa using heq)] at hrr2
      exact absurd (hrr2 ▸ hid) heq
  · intro row hrow hclosed
    rcases mergePR_store store prID now with hst | ⟨pr, -, -, hst⟩
    · rwa [hst] at hrow
    · rw [hst] at hrow
      obtain ⟨rr, hrr, hrr2⟩ := List.mem_map.mp hrow
      by_cases heq : rr.id = prID
      · rw [if_pos (by simpa using heq)] at hrr2
        rw [← hrr2] at hclosed
        exact absurd hclosed hmerged_ne
      · rw [if_neg (by simpa using heq)] at hrr2
        rw [← hrr2]
        exact hrr
  · intro store' res hrun row hrow hclosed
    unfold createPR at hrun
    split at hrun
    · simp at hrun
      rw [hrun.1]
      exact hrow
    · rename_i author hu
      split at hrun
      · exact absurd hrun (by simp)
      · simp at hrun
        rw [hrun.1]
        exact hrow
      · rename_i reviewers ha
        simp only [] at hrun
        split at hrun
        · simp at hrun
          rw [hrun.1]
          exact hrow
        · rename_i p pr2 store2 hsave
          simp only [Option.some.injEq, Prod.mk.injEq] at hrun
          obtain ⟨h1, -⟩ := hrun
          subst h1
          obtain ⟨-, -, -, hrows⟩ := savePR_ok_spec hsave
          by_cases hany : store.pullRequests.any (fun rr => rr.id == prID) = true
          · rw [if_pos hany] at hrows
            rw [hrows] at hrow
            obtain ⟨rr, hrr, hrr2⟩ := List.mem_map.mp hrow
            by_cases heq : rr.id = prID
            · rw [if_pos (by simpa using heq)] at hrr2
              rw [← hrr2] at hclosed
              exact absurd hclosed hopen_ne
            · rw [if_neg (by simpa using heq)] at hrr2
              rw [← hrr2]
              exact hrr
          · rw [if_neg hany] at hrows
            rw [hrows] at hrow
            rcases List.mem_append.mp hrow with hl | hr
            · exact hl
            · simp at hr
              rw [hr] at hclosed
              exact absurd hclosed hopen_ne

theorem mem_insert_foldl (prID : String) (new : List String)
    (init : List (String × String)) (x : String × String) :
    x ∈ new.foldl
        (fun acc reviewerID =>
          if acc.contains (prID, reviewerID) then acc else acc ++ [(prID, reviewerID)])
        init
      ↔ x ∈ init ∨ ∃ rev ∈ new, x = (prID, rev) := by
  induction new generalizing init with
  | nil => simp
  | cons y ys ih =>
    simp only [List.foldl_cons]
    by_cases hc : init.contains (prID, y) = true
    · rw [if_pos hc, ih]
      constructor
      · rintro (hx | ⟨rev, hrev, rfl⟩)
        · exact Or.inl hx
        · exact Or.inr ⟨rev, by simp [hrev], rfl⟩
      · rintro (hx | ⟨rev, hrev, rfl⟩)
        · exact Or.inl hx
        · rcases List.mem_cons.mp hrev with heq | hrev2
          · rw [heq]
            left
            simpa using hc
          · exact Or.inr ⟨rev, hrev2, rfl⟩
    · rw [if_neg hc, ih]
      constructor
      · rintro (hx | ⟨rev, hrev, rfl⟩)
        · rcases List.mem_append.mp hx with h1 | h2
          · exact Or.inl h1
          · simp at h2
            exact Or.inr ⟨y, by simp, by simp [h2]⟩
        · exact Or.inr ⟨rev, by simp [hrev], rfl⟩
      · rintro (hx | ⟨rev, hrev, rfl⟩)
        · exact Or.inl (List.mem_append.mpr (Or.inl hx))
        · rcases List.mem_cons.mp hrev with heq | hrev2
          · rw [heq]
            exact Or.inl (List.mem_append.mpr (Or.inr (by simp)))
          · exact Or.inr ⟨rev, hrev2, rfl⟩

theorem mem_reviewersOf {store : Store} {prID rev : String} :
    rev ∈ reviewersOf store prID ↔ (prID, rev) ∈ store.prReviewers := by
  unfold reviewersOf
  constructor
  · intro h
    obtain ⟨p, hp, hsnd⟩ := List.mem_map.mp h
    obtain ⟨hmem, hfst⟩ := List.mem_filter.mp hp
    simp at hfst
    obtain ⟨p1, p2⟩ := p
    simp at hfst hsnd
    rw [← hfst, ← hsnd]
    exact hmem
  · intro h
    exact List.mem_map.mpr ⟨(prID, rev), List.mem_filter.mpr ⟨h, by simp⟩, rfl⟩

/-- The users of the C8 counterexample: team 1 with `a` (the author),
active mates `b` and `c`, and an inactive `d` who is a stale reviewer of
`pr1`. -/
def staleUsers : List User :=
  [⟨"a", "alice", 1, "devs", true⟩, ⟨"b", "bob", 1, "devs", true⟩,
   ⟨"c", "carol", 1, "devs", true⟩, ⟨"d", "dave", 1, "devs", false⟩]

/-- A store where `pr1` already exists with reviewer `d`. -/
def staleStore : Store :=
  ⟨[⟨"pr1", "old title", "a", "OPEN", some 1, none⟩], [("pr1", "d")], staleUsers⟩

/-- The C8 re-create run over the existing id and its projections. -/
def staleCreate : Option (Store × Except DomainError PullRequest) :=
  createPR staleStore "pr1" "new title" "a" demoG 5 9

/-- The store after the C8 re-create run. -/
def staleStore2 : Store :=
  (staleCreate.getD (staleStore, .error .noCandidates)).1

/-- The PR returned by the C8 re-create run. -/
def stalePR : PullRequest :=
  (staleCreate.getD (staleStore, .error .noCandidates)).2.toOption.getD default

/-- C8 counterexample: re-creating `pr1` succeeds with newly selected
reviewers `[b, c]`, but the stored reviewer set afterwards is
`[d, b, c]` — the stale reviewer `d` is not removed, so the stored set
does not equal the newly selected set. -/
theorem createPR_upsert_keeps_stale_reviewer :
    staleCreate = some (staleStore2, .ok stalePR) ∧
      reviewersOf staleStore2 "pr1" = ["d", "b", "c"] ∧
      stalePR.assignedReviewers = ["b", "c"] ∧
      "d" ∈ reviewersOf staleStore2 "pr1" ∧ "d" ∉ stalePR.assignedReviewers :=
  ⟨rfl, rfl, rfl, by decide, by decide⟩

/-- C8 amended: `CreatePR` on an existing id is not rejected — the stored
record's title and status are overwritten (upsert) — but the reviewer set
is merge-inserted, not replaced: afterwards the stored set holds exactly
the previously assigned reviewers together with the newly selected ones. -/
theorem createPR_upsert_merges_reviewers (store : Store)
    (prID title authorID : String) (g : Nat → Nat) (fuel now : Nat)
    (store' : Store) (pr : PullRequest)
    (hexists : store.pullRequests.any (fun r => r.id == prID) = true)
    (hrun : createPR store prID title authorID g fuel now = some (store', .ok pr)) :
    (∀ row ∈ store'.pullRequests, row.id = prID →
      row.title = title ∧ row.status = PRStatusOpen) ∧
    (∀ rev, rev ∈ reviewersOf store' prID ↔
      (rev ∈ reviewersOf store prID ∨ rev ∈ pr.assignedReviewers)) := by
  obtain ⟨author, reviewers, -, -, hpr, hsave⟩ := createPR_ok_inv hrun
  obtain ⟨-, -, hrevs, hrows⟩ := savePR_ok_spec hsave
  rw [if_pos hexists] at hrows
  constructor
  · intro row hrow hid
    rw [hrows] at hrow
    obtain ⟨rr, hrr, hrr2⟩ := List.mem_map.mp hrow
    by_cases heq : rr.id = prID
    · rw [if_pos (by simpa using heq)] at hrr2
      rw [← hrr2]
      exact ⟨rfl, rfl⟩
    · rw [if_neg (by simpa using heq)] at hrr2
      exact absurd (hrr2 ▸ hid) heq
  · intro rev
    rw [mem_reviewersOf, mem_reviewersOf, hrevs, mem_insert_foldl]
    constructor
    · rintro (hx | ⟨rev2, hrev2, hpair⟩)
      · exact Or.inl hx
      · simp at hpair
        rw [hpr]
        simp [hpair, hrev2]
    · rintro (hx | hx)
      · exact Or.inl hx
      · right
        rw [hpr] at hx
        simp at hx
        exact ⟨rev, hx, rfl⟩

theorem createPR_upsert_merges_reviewers_witness :
    (∀ row ∈ staleStore2.pullRequests, row.id = "pr1" →
      row.title = "new title" ∧ row.status = PRStatusOpen) ∧
    (∀ rev, rev ∈ reviewersOf staleStore2 "pr1" ↔
      (rev ∈ reviewersOf staleStore "pr1" ∨ rev ∈ stalePR.assignedReviewers)) :=
  createPR_upsert_merges_reviewers staleStore "pr1" "new title" "a" demoG 5 9
    staleStore2 stalePR (by decide) (by rfl)

end AvitoReview
